import Mathlib

/-!
Shallow embedding of the go-ntp wire codec (package `ntp`, file `ntp.go`).

Conventions of the embedding:
* a Go byte is a `Nat` (values kept `< 256` by the `% 256` casts the source
  performs, or by range hypotheses mirroring the Go types of struct fields);
* a Go byte slice is a `List Nat`;
* Go's truncating `int64` division and remainder are `Int.tdiv` / `Int.tmod`;
* conversions to unsigned machine integers (`byte(x)`, `uint16(x)`,
  `uint32(x)`) are `% 2 ^ w` on `Nat`, or `Int.emod (2 ^ w)` on signed values;
* fallible code returns `Option` / `Except` / `GoResult`; an out-of-range
  index or slice (a Go panic) is `Option.none` / `GoResult.panic`.
-/

/-- Result of a Go function that can either return a value, return an error,
or panic (index / slice out of range). -/
inductive GoResult (α : Type) where
  | ok : α → GoResult α
  | err : String → GoResult α
  | panic : GoResult α
deriving DecidableEq

/-- Go slice expression `b[i:j]` (a view of length `j - i`); bounds are
checked by `checkedSlice` where the source's implicit check matters. -/
def sliceOf (b : List Nat) (i j : Nat) : List Nat := (b.drop i).take (j - i)

/-- Go slice expression `b[i:j]` together with its bounds check:
`none` models the panic Go raises when `j` exceeds the slice length. -/
def checkedSlice (b : List Nat) (i j : Nat) : Option (List Nat) :=
  if i ≤ j ∧ j ≤ b.length then some (sliceOf b i j) else none

/-- Writes the bytes `xs` into `b` starting at offset `off`: the model of a
Go helper writing through a subslice view such as `buf[4:8]` (the subslice
views used by the source are always in bounds, and this helper leaves `b`
unchanged outside `[off, off + xs.length)`). -/
def writeAt : List Nat → Nat → List Nat → List Nat
  | b, _, [] => b
  | [], _, _ => []
  | _ :: b, 0, y :: ys => y :: writeAt b 0 ys
  | x :: b, off + 1, ys => x :: writeAt b off ys

/-- Go conversion `byte(x)` applied to a signed 8-bit value
(two's-complement truncation). -/
def byteOfInt8 (x : Int) : Nat := (x % 256).toNat

/-- Go conversion `exponent(b)` (i.e. `int8(b)`) applied to a byte
(two's-complement reinterpretation). -/
def int8OfByte (b : Nat) : Int := if b < 128 then (b : Int) else (b : Int) - 256

/-- `const HeaderSize = 48`. -/
def HeaderSize : Nat := 48

/-- Go `type exponent int8`, modelled as `Int`; theorems carry the
`[-128, 128)` range where the 8-bit width matters. -/
abbrev exponent := Int

/-- `exponent.Float`. The Go `uint` is 64 bits wide, so `1 << k` wraps for
shift counts `k ≥ 64` (hence the `% 2 ^ 64`); for `e = -128` Go's `int8`
negation wraps and the resulting huge `uint` shift count also yields `0`,
which `(-e).toNat = 128` reproduces. The float64 arithmetic is idealized as
`ℚ`: every value reachable here is a power of two or `0`, on which float64 is
exact, except that Go's `1/0 = +Inf` (after a shift that wrapped to `0`)
becomes `1/0 = 0` in `ℚ` — both differ from every power of two, which is all
the theorems below rely on. -/
def exponent.Float (e : exponent) : ℚ :=
  if e < 0 then 1 / (((1 <<< (-e).toNat) % 2 ^ 64 : Nat) : ℚ)
  else (((1 <<< e.toNat) % 2 ^ 64 : Nat) : ℚ)

/-- Go's `math.Log2`, modelled on the inputs the development uses: on an
exact power of two `2 ^ e` Go's `Frexp`-based `Log2` returns exactly `e`
(and the subsequent float64 → `int8` conversion in `FloatToExponent` is exact
for results in `[-128, 127]`). For a reduced rational `2 ^ e` the numerator
is `1` exactly when `e ≤ 0`, so the two branches below recover `e` from the
numerator or denominator; on inputs that are not powers of two this model is
never used by a theorem. -/
def mathLog2 (v : ℚ) : Int :=
  if v.num = 1 then -(Nat.log 2 v.den : Int) else (Nat.log 2 v.num.toNat : Int)

/-- `FloatToExponent` returns `exponent(math.Log2(v))` and a nil error. -/
def FloatToExponent (v : ℚ) : Except String exponent := .ok (mathLog2 v)

/-- `Short`: 16.16 fixed point; both fields are `uint16` in Go. -/
structure Short where
  Seconds : Nat
  Fraction : Nat
deriving DecidableEq

/-- `Timestamp`: 32.32 fixed point; both fields are `uint32` in Go. -/
structure Timestamp where
  Seconds : Nat
  Fraction : Nat
deriving DecidableEq

/-- `NewTimestampFromTime`. The elapsed nanoseconds since `NTPEpoch`
(`t.Sub(NTPEpoch).Nanoseconds()`, an `int64`) are passed as `ns`, and the
random draw `rand.Intn(4)` as `lsb : Fin 4` (matching `Intn`'s range
contract). `f << 32` cannot overflow `int64` because `|f| < 10 ^ 9`;
the `uint32` casts are `Int.emod (2 ^ 32)`. -/
def NewTimestampFromTime (ns : Int) (lsb : Fin 4) : Except String Timestamp :=
  let s : Int := ns.tdiv (10 ^ 9)
  if s > 0xffffffff ∨ s < -0xffffffff then .error "Timestamp overflow"
  else
    let f : Int := ns.tmod (10 ^ 9)
    let seconds : Nat := (s % 2 ^ 32).toNat
    let fraction : Nat := ((f * 2 ^ 32).tdiv (10 ^ 9) % 2 ^ 32).toNat
    .ok { Seconds := seconds, Fraction := fraction >>> 2 <<< 2 ||| (lsb : Nat) }

/-- `NewShortFromDuration`, with the duration's nanoseconds
(`d.Nanoseconds()`, an `int64`) passed as `d`. The `uint16` casts are
`Int.emod (2 ^ 16)`; `r << 16` cannot overflow `int64` because
`|r| < 10 ^ 9`. -/
def NewShortFromDuration (d : Int) : Except String Short :=
  let s : Int := d.tdiv (10 ^ 9)
  if s > 0xffff ∨ s < -0xffff then .error "Timestamp overflow"
  else
    .ok { Seconds := (s % 2 ^ 16).toNat,
          Fraction := ((d.tmod (10 ^ 9) * 2 ^ 16).tdiv (10 ^ 9) % 2 ^ 16).toNat }

/-- `ExtensionField`; the Go field `Type` is renamed `Typ` (`Type` is a Lean
keyword). -/
structure ExtensionField where
  Typ : Nat
  Value : List Nat
deriving DecidableEq

/-- `MsgHeader`; `RefID` is Go's `[4]byte`. -/
structure MsgHeader where
  Leap : Nat
  Version : Nat
  Mode : Nat
  Stratum : Nat
  Poll : exponent
  Precision : exponent
  RootDelay : Short
  RootDisp : Short
  RefID : List Nat
  RefTime : Timestamp
  Org : Timestamp
  Rec : Timestamp
  Xmt : Timestamp
  Dst : Timestamp
deriving DecidableEq

/-- `Msg`; `Dgst` is Go's `[16]byte`. -/
structure Msg where
  Header : MsgHeader
  ExtensionFields : List ExtensionField
  KeyID : Nat
  Dgst : List Nat
deriving DecidableEq

/-- Go zero value of `Short`. -/
def zeroShort : Short := { Seconds := 0, Fraction := 0 }

/-- Go zero value of `Timestamp`. -/
def zeroTimestamp : Timestamp := { Seconds := 0, Fraction := 0 }

/-- Go zero value of `MsgHeader`. -/
def zeroMsgHeader : MsgHeader :=
  { Leap := 0, Version := 0, Mode := 0, Stratum := 0, Poll := 0, Precision := 0,
    RootDelay := zeroShort, RootDisp := zeroShort, RefID := [0, 0, 0, 0],
    RefTime := zeroTimestamp, Org := zeroTimestamp, Rec := zeroTimestamp,
    Xmt := zeroTimestamp, Dst := zeroTimestamp }

/-- Go zero value of `Msg`. -/
def zeroMsg : Msg :=
  { Header := zeroMsgHeader, ExtensionFields := [], KeyID := 0,
    Dgst := List.replicate 16 0 }

/-- `packShort` writes 4 bytes into its 4-byte slice argument; modelled as
returning those 4 bytes (the caller writes them at the slice's offset).
The `byte(...)` casts are the `% 256`. -/
def packShort (st : Short) : List Nat :=
  [(st.Seconds >>> 8) % 256, (st.Seconds &&& 0xff) % 256,
   (st.Fraction >>> 8) % 256, (st.Fraction &&& 0xff) % 256]

/-- `unpackShort` reads the 4 bytes of its slice argument (big endian). -/
def unpackShort (b : List Nat) : Short :=
  { Seconds := (b.getD 0 0) <<< 8 ||| b.getD 1 0,
    Fraction := (b.getD 2 0) <<< 8 ||| b.getD 3 0 }

/-- `packTimestamp` writes 8 bytes into its 8-byte slice argument; modelled
as returning those 8 bytes. The `byte(...)` casts are the `% 256`. -/
def packTimestamp (st : Timestamp) : List Nat :=
  [(st.Seconds >>> 24) % 256, ((st.Seconds >>> 16) &&& 0xff) % 256,
   ((st.Seconds >>> 8) &&& 0xff) % 256, (st.Seconds &&& 0xff) % 256,
   (st.Fraction >>> 24) % 256, ((st.Fraction >>> 16) &&& 0xff) % 256,
   ((st.Fraction >>> 8) &&& 0xff) % 256, (st.Fraction &&& 0xff) % 256]

/-- `unpackTimestamp` reads the 8 bytes of its slice argument (big endian). -/
def unpackTimestamp (b : List Nat) : Timestamp :=
  { Seconds := (b.getD 0 0) <<< 24 ||| (b.getD 1 0) <<< 16 |||
               (b.getD 2 0) <<< 8 ||| b.getD 3 0,
    Fraction := (b.getD 4 0) <<< 24 ||| (b.getD 5 0) <<< 16 |||
                (b.getD 6 0) <<< 8 ||| b.getD 7 0 }

/-- `MsgHeader.Unpack` reads bytes 0–47 of `b`; the Go code performs no
length check, so a buffer shorter than 48 bytes panics on an index — the
guard models those implicit bounds checks. The method mutates its receiver:
fields the source never assigns (notably `RefTime`) keep the receiver's
previous value, which `{ mh with ... }` reproduces. -/
def MsgHeader.Unpack (mh : MsgHeader) (b : List Nat) : Option MsgHeader :=
  if 48 ≤ b.length then
    some { mh with
      Leap := b.getD 0 0 >>> 6,
      Version := (b.getD 0 0 >>> 3) &&& 0x7,
      Mode := b.getD 0 0 &&& 0x7,
      Stratum := b.getD 1 0,
      Poll := int8OfByte (b.getD 2 0),
      Precision := int8OfByte (b.getD 3 0),
      RootDelay := unpackShort (sliceOf b 4 8),
      RootDisp := unpackShort (sliceOf b 8 12),
      RefID := [b.getD 12 0, b.getD 13 0, b.getD 14 0, b.getD 15 0],
      Org := unpackTimestamp (sliceOf b 16 24),
      Rec := unpackTimestamp (sliceOf b 24 32),
      Xmt := unpackTimestamp (sliceOf b 32 40),
      Dst := unpackTimestamp (sliceOf b 40 48) }
  else none

/-- `MsgHeader.Pack` writes byte 0 (`Leap<<6 | Version<<3 | Mode`, each
shifted sub-expression a `uint8`, hence the `% 256` wraps), `Stratum`,
`Poll`, `Precision`, and the two `Short`s at offsets 4 and 8 — and nothing
further: the source returns `(nil, nil)` right after `RootDisp`, so bytes
12–47 are never touched. A buffer shorter than the 12 bytes the code writes
panics (the guard). -/
def MsgHeader.Pack (mh : MsgHeader) (buf : List Nat) : Option (List Nat) :=
  if 12 ≤ buf.length then
    some (writeAt (writeAt ((((buf.set 0
      (((mh.Leap <<< 6) % 256) ||| ((mh.Version <<< 3) % 256) ||| mh.Mode)).set 1
      mh.Stratum).set 2 (byteOfInt8 mh.Poll)).set 3 (byteOfInt8 mh.Precision))
      4 (packShort mh.RootDelay)) 8 (packShort mh.RootDisp))
  else none

/-- Loop body of `Msg.unpackExtensionFields`. `fuel` only forces
termination; it cannot run out on the iterations Go actually performs,
because the cursor increment `padding = 4 - (l % 4)` is always between 1 and
4 (so at most `b.length` iterations happen before `i < len(b)` fails).
`none` models the panics of the unchecked reads `b[i+1]` and of the slice
`b[startVal:endVal]`. -/
def unpackExtFieldsGo (b : List Nat) (acc : List ExtensionField) :
    Nat → Nat → Option (List ExtensionField)
  | _, 0 => none
  | i, fuel + 1 =>
    if i < b.length then
      match b.get? i, b.get? (i + 1) with
      | some t, some l =>
        let startVal := i + 2
        let endVal := l + startVal
        match checkedSlice b startVal endVal with
        | some val =>
          let padding := 4 - l % 4
          let i' := if padding ≠ 0 then i + padding else i
          unpackExtFieldsGo b (acc ++ [{ Typ := t, Value := val }]) i' fuel
        | none => none
      | _, _ => none
    else some acc

/-- `Msg.unpackExtensionFields`: starts at cursor 0, appending each decoded
field to the receiver's current list `fields`. -/
def Msg.unpackExtensionFields (fields : List ExtensionField) (b : List Nat) :
    Option (List ExtensionField) :=
  unpackExtFieldsGo b fields 0 (b.length + 1)

/-- The digest loop `for i := 15; i >= 0; i-- { m.Dgst[i] = b[end-i-1] }`.
`none` models an out-of-range index panic. Only called with `e > 16`, so the
`Nat` subtraction never clamps. -/
def readDgst (b : List Nat) (e : Nat) : Option (List Nat) :=
  (List.range 16).mapM fun i => b.get? (e - i - 1)

/-- `Msg.Unpack`. Mirrors the source exactly, including `end := len(b) + 1`
and the trailer requirement `remain ≥ 4 + len(m.Dgst) + 5`
(keyid + digest + minimum extension field). -/
def Msg.Unpack (m : Msg) (b : List Nat) : GoResult Msg :=
  match m.Header.Unpack b with
  | none => .panic
  | some hdr =>
    if hdr.Version < 4 then .ok { m with Header := hdr }
    else
      let e := b.length + 1
      let remain := e - HeaderSize
      if remain > 1 then
        if remain < 4 + m.Dgst.length + 5 then
          .err ("not enough data following header: " ++ toString remain ++ " bytes")
        else
          match readDgst b e with
          | none => .panic
          | some dgst =>
            let e' := e - dgst.length
            match b.get? (e' - 4), b.get? (e' - 3), b.get? (e' - 2), b.get? (e' - 1) with
            | some k0, some k1, some k2, some k3 =>
              let keyID := k0 <<< 24 ||| k1 <<< 16 ||| k2 <<< 8 ||| k3
              let e'' := e' - 4
              match checkedSlice b HeaderSize e'' with
              | none => .panic
              | some ext =>
                match Msg.unpackExtensionFields m.ExtensionFields ext with
                | none => .panic
                | some efs =>
                  .ok { Header := hdr, ExtensionFields := efs,
                        KeyID := keyID, Dgst := dgst }
            | _, _, _, _ => .panic
      else .ok { m with Header := hdr }

/-! ### Arithmetic helper lemmas -/

/-! ### Arithmetic helper lemmas -/

/-- A shifted value `|||`-combined with a small value is plain addition
(the bitfields are disjoint). -/
lemma shiftLeft_lor_eq_add (a b n : Nat) (hb : b < 2 ^ n) :
    a <<< n ||| b = a <<< n + b := by
  rw [Nat.shiftLeft_eq, Nat.mul_comm a (2 ^ n)]
  exact (Nat.mul_add_lt_is_or hb a).symm

/-- Big-endian recomposition of two bytes. -/
lemma lor2_eq (b0 b1 : Nat) (h1 : b1 < 256) :
    b0 <<< 8 ||| b1 = b0 * 256 + b1 := by
  rw [shiftLeft_lor_eq_add b0 b1 8 (by omega), Nat.shiftLeft_eq]

/-- Big-endian recomposition of four bytes. -/
lemma lor4_eq (b0 b1 b2 b3 : Nat) (h1 : b1 < 256) (h2 : b2 < 256) (h3 : b3 < 256) :
    b0 <<< 24 ||| b1 <<< 16 ||| b2 <<< 8 ||| b3 =
      ((b0 * 256 + b1) * 256 + b2) * 256 + b3 := by
  rw [Nat.lor_assoc, Nat.lor_assoc,
    shiftLeft_lor_eq_add b2 b3 8 (by omega),
    shiftLeft_lor_eq_add b1 _ 16 (by rw [Nat.shiftLeft_eq]; omega),
    shiftLeft_lor_eq_add b0 _ 24 (by rw [Nat.shiftLeft_eq, Nat.shiftLeft_eq]; omega)]
  simp only [Nat.shiftLeft_eq]
  ring

/-- `unpackShort` undoes `packShort` on in-range (`uint16`) fields. -/
lemma unpackShort_packShort (s : Short)
    (h1 : s.Seconds < 2 ^ 16) (h2 : s.Fraction < 2 ^ 16) :
    unpackShort (packShort s) = s := by
  obtain ⟨S, F⟩ := s
  simp only [packShort, unpackShort, List.getD_cons_zero, List.getD_cons_succ]
  rw [show (0xff : Nat) = 2 ^ 8 - 1 by norm_num,
    Nat.and_pow_two_sub_one_eq_mod, Nat.and_pow_two_sub_one_eq_mod,
    lor2_eq _ _ (by omega), lor2_eq _ _ (by omega)]
  simp only [Nat.shiftRight_eq_div_pow, Short.mk.injEq] at *
  constructor <;> omega

/-- `unpackTimestamp` undoes `packTimestamp` on in-range (`uint32`) fields. -/
lemma unpackTimestamp_packTimestamp (ts : Timestamp)
    (h1 : ts.Seconds < 2 ^ 32) (h2 : ts.Fraction < 2 ^ 32) :
    unpackTimestamp (packTimestamp ts) = ts := by
  obtain ⟨S, F⟩ := ts
  simp only [packTimestamp, unpackTimestamp, List.getD_cons_zero, List.getD_cons_succ]
  rw [show (0xff : Nat) = 2 ^ 8 - 1 by norm_num]
  simp only [Nat.and_pow_two_sub_one_eq_mod]
  rw [lor4_eq _ _ _ _ (by omega) (by omega) (by omega),
    lor4_eq _ _ _ _ (by omega) (by omega) (by omega)]
  simp only [Nat.shiftRight_eq_div_pow, Timestamp.mk.injEq] at *
  constructor <;> omega

/-! ### C1: a 68-byte Version-4 message (header + keyid + digest) -/

/-- A 68-byte buffer: Version-4 header (`0x23` = leap 0, version 4, mode 3)
followed by 20 trailing bytes `1..20` (4-byte key id + 16-byte digest). -/
def buf68 : List Nat := 0x23 :: (List.replicate 47 0 ++ (List.range 20).map (· + 1))

/-- C1: evaluating `Msg.Unpack` at a 68-byte Version-4 buffer with zero
extension fields. The source computes `end = len(b)+1 = 69`, `remain = 21`,
and rejects the buffer because it demands
`remain ≥ 4 (keyid) + 16 (digest) + 5 (minimum extension field) = 25`:
the claim's "Unpack succeeds and decodes KeyID/Dgst" is false on the code. -/
theorem c1_unpack_68_byte_v4_rejected :
    buf68.length = 68 ∧
    Msg.Unpack zeroMsg buf68 = .err "not enough data following header: 21 bytes" := by
  decide

/-! ### C2: header timestamp offsets -/

/-- A 48-byte buffer whose byte at offset `i` is `i`. -/
def buf48pat : List Nat := List.range 48

/-- C2: evaluating `MsgHeader.Unpack` on the buffer whose byte `i` is `i`.
Bytes 16–23 (`0x10..0x17`) land in `Org` — not in `RefTime`, which keeps the
receiver's zero value — bytes 24–31 land in `Rec`, 32–39 in `Xmt`, and bytes
40–47 are assigned to `Dst`; the claim's layout (RefTime←16–23, Org←24–31,
Rec←32–39, Xmt←40–47, Dst untouched) is false on the code. -/
theorem c2_header_unpack_misassigns_timestamps :
    (MsgHeader.Unpack zeroMsgHeader buf48pat).map
        (fun mh => (mh.RefTime, mh.Org, mh.Rec, mh.Xmt, mh.Dst)) =
      some (zeroTimestamp,
        { Seconds := 0x10111213, Fraction := 0x14151617 },
        { Seconds := 0x18191A1B, Fraction := 0x1C1D1E1F },
        { Seconds := 0x20212223, Fraction := 0x24252627 },
        { Seconds := 0x28292A2B, Fraction := 0x2C2D2E2F }) ∧
    ({ Seconds := 0x10111213, Fraction := 0x14151617 } : Timestamp) ≠ zeroTimestamp := by
  decide

/-! ### C3: extension-field cursor advance -/

/-- C3: the extension-field decoder advances its cursor only by
`padding = 4 - (length % 4)` (which is 4, not 0, for lengths divisible
by 4), never by the `2 + length` bytes of the record itself. On the claim's
example `[0x01, 0x03, 0xAA, 0xBB, 0xCC, 0x00]` the second loop iteration
re-reads inside the first record (type `0x03`, length `0xAA`) and the value
slice runs past the buffer: Go panics (`none`), instead of yielding one field
consuming 6 bytes. On `[1, 0, 2, 0]` (a length-0 field followed by another)
the cursor jumps 4 bytes and the decoder returns a single field, swallowing
the second record as padding. -/
theorem c3_ext_field_cursor_bug :
    Msg.unpackExtensionFields [] [0x01, 0x03, 0xAA, 0xBB, 0xCC, 0x00] = none ∧
    Msg.unpackExtensionFields [] [1, 0, 2, 0] = some [{ Typ := 1, Value := [] }] := by
  decide

/-! ### C4: header packing -/

/-- A header with visibly nonzero `RefID` and transmit timestamp. -/
def mh4 : MsgHeader :=
  { zeroMsgHeader with
    Version := 4, Mode := 3, Stratum := 1,
    RefID := [1, 2, 3, 4], Xmt := { Seconds := 5, Fraction := 6 } }

/-- C4: `MsgHeader.Pack` stops after the two `Short`s: on a 48-byte zero
buffer it writes only bytes 0–11 (`0x23`, stratum, poll, precision, the two
Shorts) and leaves bytes 12–47 zero, although the header's `RefID` and `Xmt`
are nonzero; the claim's "writes the complete 48-byte wire layout" is false
on the code. -/
theorem c4_header_pack_stops_after_12_bytes :
    MsgHeader.Pack mh4 (List.replicate 48 0) =
      some ([0x23, 1, 0, 0, 0, 0, 0, 0, 0, 0, 0, 0] ++ List.replicate 36 0) ∧
    mh4.RefID ≠ [0, 0, 0, 0] ∧ mh4.Xmt ≠ zeroTimestamp := by
  decide

/-! ### C5: a 48-byte Version-4 message with no trailer -/

/-- C5: a Version-4 buffer of exactly 48 bytes decodes with no error, no
extension fields, and the zero `KeyID`/`Dgst` (the trailer branch is not
taken: `remain = (48+1) - 48 = 1` is not `> 1`). -/
theorem c5_unpack_48_bytes_v4_no_trailer (b : List Nat) (hlen : b.length = 48)
    (hver : (b.getD 0 0 >>> 3) &&& 0x7 = 4) :
    (MsgHeader.Unpack zeroMsgHeader b).isSome ∧
    ∀ hdr, MsgHeader.Unpack zeroMsgHeader b = some hdr →
      Msg.Unpack zeroMsg b =
        .ok { Header := hdr, ExtensionFields := [], KeyID := 0,
              Dgst := List.replicate 16 0 } := by
  have h48 : 48 ≤ b.length := le_of_eq hlen.symm
  constructor
  · rw [MsgHeader.Unpack, if_pos h48]; rfl
  · intro hdr hu
    have hv : hdr.Version = 4 := by
      rw [MsgHeader.Unpack, if_pos h48] at hu
      injection hu with h
      rw [← h]
      exact hver
    rw [Msg.Unpack, show zeroMsg.Header = zeroMsgHeader from rfl, hu]
    simp only [hv, hlen, HeaderSize, zeroMsg]
    norm_num

/-- Witness for C5 at the concrete buffer `0x23` followed by 47 zero bytes. -/
theorem c5_unpack_48_bytes_v4_no_trailer_witness :
    ((0x23 :: List.replicate 47 0 : List Nat).length = 48) ∧
    (((0x23 :: List.replicate 47 0 : List Nat).getD 0 0 >>> 3) &&& 0x7 = 4) ∧
    ((MsgHeader.Unpack zeroMsgHeader (0x23 :: List.replicate 47 0)).isSome ∧
     ∀ hdr, MsgHeader.Unpack zeroMsgHeader (0x23 :: List.replicate 47 0) = some hdr →
       Msg.Unpack zeroMsg (0x23 :: List.replicate 47 0) =
         .ok { Header := hdr, ExtensionFields := [], KeyID := 0,
               Dgst := List.replicate 16 0 }) :=
  ⟨by decide, by decide,
   c5_unpack_48_bytes_v4_no_trailer (0x23 :: List.replicate 47 0) (by decide) (by decide)⟩

/-! ### C6: pack/unpack round-trips -/

/-- C6: the big-endian pack/unpack pairs for `Short` and `Timestamp` are
exact round-trips on all representable (`uint16`/`uint32`) field values. -/
theorem c6_pack_unpack_lossless (s : Short) (ts : Timestamp)
    (hs1 : s.Seconds < 2 ^ 16) (hs2 : s.Fraction < 2 ^ 16)
    (ht1 : ts.Seconds < 2 ^ 32) (ht2 : ts.Fraction < 2 ^ 32) :
    unpackShort (packShort s) = s ∧ unpackTimestamp (packTimestamp ts) = ts :=
  ⟨unpackShort_packShort s hs1 hs2, unpackTimestamp_packTimestamp ts ht1 ht2⟩

/-- Witness for C6 at concrete field values. -/
theorem c6_pack_unpack_lossless_witness :
    ((0x1234 : Nat) < 2 ^ 16) ∧ ((0xABCD : Nat) < 2 ^ 16) ∧
    ((0x89ABCDEF : Nat) < 2 ^ 32) ∧ ((0x01020304 : Nat) < 2 ^ 32) ∧
    (unpackShort (packShort { Seconds := 0x1234, Fraction := 0xABCD }) =
        { Seconds := 0x1234, Fraction := 0xABCD } ∧
      unpackTimestamp (packTimestamp { Seconds := 0x89ABCDEF, Fraction := 0x01020304 }) =
        { Seconds := 0x89ABCDEF, Fraction := 0x01020304 }) :=
  ⟨by decide, by decide, by decide, by decide,
   c6_pack_unpack_lossless { Seconds := 0x1234, Fraction := 0xABCD }
     { Seconds := 0x89ABCDEF, Fraction := 0x01020304 }
     (by decide) (by decide) (by decide) (by decide)⟩

/-! ### C7: Short-from-duration overflow boundary -/

/-- C7: `NewShortFromDuration` succeeds exactly when the duration's whole
seconds (`int64`-truncated toward zero) have magnitude at most 65535, and in
particular fails at exactly ±65536 seconds. -/
theorem c7_short_duration_overflow_iff :
    (∀ d : Int, (∃ sh, NewShortFromDuration d = .ok sh) ↔
      (d.tdiv (10 ^ 9)).natAbs ≤ 65535) ∧
    NewShortFromDuration (65536 * 10 ^ 9) = .error "Timestamp overflow" ∧
    NewShortFromDuration (-65536 * 10 ^ 9) = .error "Timestamp overflow" := by
  refine ⟨?_, by rfl, by rfl⟩
  intro d
  simp only [NewShortFromDuration]
  generalize d.tdiv (10 ^ 9) = q
  by_cases h : q > 0xffff ∨ q < -0xffff
  · rw [if_pos h]
    simp only [reduceCtorEq, exists_false, false_iff]
    omega
  · rw [if_neg h]
    simp only [Except.ok.injEq, exists_eq', true_iff]
    omega

/-! ### C8: timestamp construction determinism above the two random bits -/

/-- The two randomized low bits do not affect the upper 30 fraction bits. -/
lemma lor_low2_shiftRight (x l : Nat) (hl : l < 4) :
    (x >>> 2 <<< 2 ||| l) >>> 2 = x >>> 2 := by
  rw [shiftLeft_lor_eq_add _ _ 2 (by omega), Nat.shiftLeft_eq]
  simp only [Nat.shiftRight_eq_div_pow]
  omega

/-- C8: for an in-range time, two constructions with different random draws
agree on `Seconds` and on `Fraction >>> 2`, and those upper 30 bits are the
truncation of `ns_remainder * 2^32 / 1e9` (as a `uint32`) shifted right
by 2. -/
theorem c8_timestamp_upper_bits_deterministic (ns : Int) (l1 l2 : Fin 4)
    (hfit : (ns.tdiv (10 ^ 9)).natAbs ≤ 2 ^ 32 - 1) :
    ∃ t1 t2, NewTimestampFromTime ns l1 = .ok t1 ∧ NewTimestampFromTime ns l2 = .ok t2 ∧
      t1.Seconds = t2.Seconds ∧ t1.Fraction >>> 2 = t2.Fraction >>> 2 ∧
      t1.Fraction >>> 2 =
        ((ns.tmod (10 ^ 9) * 2 ^ 32).tdiv (10 ^ 9) % 2 ^ 32).toNat >>> 2 := by
  have hcond : ¬(ns.tdiv (10 ^ 9) > 0xffffffff ∨ ns.tdiv (10 ^ 9) < -0xffffffff) := by
    omega
  simp only [NewTimestampFromTime, if_neg hcond]
  refine ⟨_, _, rfl, rfl, rfl, ?_, ?_⟩
  · rw [lor_low2_shiftRight _ _ l1.isLt, lor_low2_shiftRight _ _ l2.isLt]
  · rw [lor_low2_shiftRight _ _ l1.isLt]

/-- Witness for C8 at 1.5 seconds past the epoch, with draws 0 and 3. -/
theorem c8_timestamp_upper_bits_deterministic_witness :
    ((1500000000 : Int).tdiv (10 ^ 9)).natAbs ≤ 2 ^ 32 - 1 ∧
    (∃ t1 t2, NewTimestampFromTime 1500000000 0 = .ok t1 ∧
      NewTimestampFromTime 1500000000 3 = .ok t2 ∧
      t1.Seconds = t2.Seconds ∧ t1.Fraction >>> 2 = t2.Fraction >>> 2 ∧
      t1.Fraction >>> 2 =
        (((1500000000 : Int).tmod (10 ^ 9) * 2 ^ 32).tdiv (10 ^ 9) % 2 ^ 32).toNat >>> 2) :=
  ⟨by decide, c8_timestamp_upper_bits_deterministic 1500000000 0 3 (by decide)⟩

/-! ### C10: header pack/unpack partial round-trip and bit-field overflow -/

/-- `writeAt` preserves the buffer length. -/
lemma writeAt_length (b : List Nat) : ∀ off xs, (writeAt b off xs).length = b.length := by
  induction b with
  | nil => intro off xs; cases xs <;> simp [writeAt]
  | cons x b ih =>
    intro off xs
    cases xs with
    | nil => simp [writeAt]
    | cons y ys =>
      cases off with
      | zero => simp [writeAt, ih]
      | succ off => simp [writeAt, ih]

/-- A list of length at least 12 starts with 12 explicit elements. -/
lemma exists_cons12 (l : List Nat) (h : 12 ≤ l.length) :
    ∃ x0 x1 x2 x3 x4 x5 x6 x7 x8 x9 x10 x11 rest,
      l = x0::x1::x2::x3::x4::x5::x6::x7::x8::x9::x10::x11::rest := by
  rcases l with _ | ⟨x0, l⟩; · simp only [List.length_nil] at h; omega
  rcases l with _ | ⟨x1, l⟩; · simp only [List.length_cons, List.length_nil] at h; omega
  rcases l with _ | ⟨x2, l⟩; · simp only [List.length_cons, List.length_nil] at h; omega
  rcases l with _ | ⟨x3, l⟩; · simp only [List.length_cons, List.length_nil] at h; omega
  rcases l with _ | ⟨x4, l⟩; · simp only [List.length_cons, List.length_nil] at h; omega
  rcases l with _ | ⟨x5, l⟩; · simp only [List.length_cons, List.length_nil] at h; omega
  rcases l with _ | ⟨x6, l⟩; · simp only [List.length_cons, List.length_nil] at h; omega
  rcases l with _ | ⟨x7, l⟩; · simp only [List.length_cons, List.length_nil] at h; omega
  rcases l with _ | ⟨x8, l⟩; · simp only [List.length_cons, List.length_nil] at h; omega
  rcases l with _ | ⟨x9, l⟩; · simp only [List.length_cons, List.length_nil] at h; omega
  rcases l with _ | ⟨x10, l⟩; · simp only [List.length_cons, List.length_nil] at h; omega
  rcases l with _ | ⟨x11, l⟩; · simp only [List.length_cons, List.length_nil] at h; omega
  exact ⟨x0, x1, x2, x3, x4, x5, x6, x7, x8, x9, x10, x11, l, rfl⟩

/-- The `byte(int8)` / `int8(byte)` conversion pair is the identity on the
signed 8-bit range. -/
lemma int8OfByte_byteOfInt8 (p : Int) (h1 : -128 ≤ p) (h2 : p < 128) :
    int8OfByte (byteOfInt8 p) = p := by
  simp only [byteOfInt8, int8OfByte]
  split <;> omega

/-- Byte 0 of the header (leap/version/mode bit-fields) unpacks to the packed
values whenever each field fits its wire width. -/
lemma flags_roundtrip : ∀ L < 4, ∀ V < 8, ∀ M < 8,
    ((((L <<< 6) % 256) ||| ((V <<< 3) % 256) ||| M) >>> 6 = L) ∧
    (((((L <<< 6) % 256) ||| ((V <<< 3) % 256) ||| M) >>> 3) &&& 0x7 = V) ∧
    ((((L <<< 6) % 256) ||| ((V <<< 3) % 256) ||| M) &&& 0x7 = M) := by
  decide

/-- C10: packing a header whose bit-fields fit their wire widths into a
≥ 48-byte buffer and unpacking the result recovers `Leap`, `Version`, `Mode`,
`Stratum`, `Poll`, `Precision`, `RootDelay` and `RootDisp` exactly (these are
the only fields `Pack` writes); and when a bit-field overflows its width,
`Pack` still succeeds, silently merging the excess bits into the neighbouring
fields of byte 0 (`Mode = 15` packs and unpacks as `Version = 1`,
`Mode = 7`). -/
theorem c10_header_pack_unpack_written_fields (mh : MsgHeader) (buf : List Nat)
    (h48 : 48 ≤ buf.length)
    (hL : mh.Leap < 4) (hV : mh.Version < 8) (hM : mh.Mode < 8)
    (hP1 : -128 ≤ mh.Poll) (hP2 : mh.Poll < 128)
    (hQ1 : -128 ≤ mh.Precision) (hQ2 : mh.Precision < 128)
    (hrd1 : mh.RootDelay.Seconds < 2 ^ 16) (hrd2 : mh.RootDelay.Fraction < 2 ^ 16)
    (hrp1 : mh.RootDisp.Seconds < 2 ^ 16) (hrp2 : mh.RootDisp.Fraction < 2 ^ 16) :
    ((MsgHeader.Pack mh buf).isSome ∧
     ∀ out, MsgHeader.Pack mh buf = some out →
       (MsgHeader.Unpack zeroMsgHeader out).isSome ∧
       ∀ mh2, MsgHeader.Unpack zeroMsgHeader out = some mh2 →
         mh2.Leap = mh.Leap ∧ mh2.Version = mh.Version ∧ mh2.Mode = mh.Mode ∧
         mh2.Stratum = mh.Stratum ∧ mh2.Poll = mh.Poll ∧ mh2.Precision = mh.Precision ∧
         mh2.RootDelay = mh.RootDelay ∧ mh2.RootDisp = mh.RootDisp) ∧
    (MsgHeader.Unpack zeroMsgHeader
        ((MsgHeader.Pack { zeroMsgHeader with Mode := 15 }
          (List.replicate 48 0)).getD [])).map
      (fun h => (h.Leap, h.Version, h.Mode)) = some (0, 1, 7) := by
  have h12 : 12 ≤ buf.length := by omega
  refine ⟨⟨?_, ?_⟩, by decide⟩
  · rw [MsgHeader.Pack, if_pos h12]
    rfl
  · obtain ⟨x0, x1, x2, x3, x4, x5, x6, x7, x8, x9, x10, x11, rest, rfl⟩ :=
      exists_cons12 buf h12
    simp only [List.length_cons] at h48
    intro out hout
    rw [MsgHeader.Pack, if_pos h12] at hout
    injection hout with hBIG
    have h48o : 48 ≤ out.length := by
      rw [← hBIG, writeAt_length, writeAt_length]
      simp only [List.length_set, List.length_cons]
      omega
    subst hBIG
    constructor
    · rw [MsgHeader.Unpack, if_pos h48o]
      rfl
    · intro mh2 hmh2
      rw [MsgHeader.Unpack, if_pos h48o] at hmh2
      injection hmh2 with hrec
      subst hrec
      refine ⟨?_, ?_, ?_, rfl, ?_, ?_, ?_, ?_⟩
      · show (((mh.Leap <<< 6) % 256) ||| ((mh.Version <<< 3) % 256) ||| mh.Mode) >>> 6
          = mh.Leap
        exact (flags_roundtrip mh.Leap hL mh.Version hV mh.Mode hM).1
      · show ((((mh.Leap <<< 6) % 256) ||| ((mh.Version <<< 3) % 256) ||| mh.Mode) >>> 3)
          &&& 0x7 = mh.Version
        exact (flags_roundtrip mh.Leap hL mh.Version hV mh.Mode hM).2.1
      · show (((mh.Leap <<< 6) % 256) ||| ((mh.Version <<< 3) % 256) ||| mh.Mode) &&& 0x7
          = mh.Mode
        exact (flags_roundtrip mh.Leap hL mh.Version hV mh.Mode hM).2.2
      · show int8OfByte (byteOfInt8 mh.Poll) = mh.Poll
        exact int8OfByte_byteOfInt8 mh.Poll hP1 hP2
      · show int8OfByte (byteOfInt8 mh.Precision) = mh.Precision
        exact int8OfByte_byteOfInt8 mh.Precision hQ1 hQ2
      · show unpackShort (packShort mh.RootDelay) = mh.RootDelay
        exact unpackShort_packShort mh.RootDelay hrd1 hrd2
      · show unpackShort (packShort mh.RootDisp) = mh.RootDisp
        exact unpackShort_packShort mh.RootDisp hrp1 hrp2

/-- A concrete in-range header for the C10 witness. -/
def c10mh : MsgHeader :=
  { zeroMsgHeader with
    Leap := 1, Version := 4, Mode := 3, Stratum := 2, Poll := 6, Precision := -6,
    RootDelay := { Seconds := 1, Fraction := 2 },
    RootDisp := { Seconds := 3, Fraction := 4 } }

/-- Witness for C10 at a concrete header and a 48-byte zero buffer. -/
theorem c10_header_pack_unpack_written_fields_witness :
    (48 ≤ (List.replicate 48 0 : List Nat).length) ∧
    (c10mh.Leap < 4) ∧ (c10mh.Version < 8) ∧ (c10mh.Mode < 8) ∧
    (-128 ≤ c10mh.Poll) ∧ (c10mh.Poll < 128) ∧
    (-128 ≤ c10mh.Precision) ∧ (c10mh.Precision < 128) ∧
    (c10mh.RootDelay.Seconds < 2 ^ 16) ∧ (c10mh.RootDelay.Fraction < 2 ^ 16) ∧
    (c10mh.RootDisp.Seconds < 2 ^ 16) ∧ (c10mh.RootDisp.Fraction < 2 ^ 16) ∧
    (((MsgHeader.Pack c10mh (List.replicate 48 0)).isSome ∧
      ∀ out, MsgHeader.Pack c10mh (List.replicate 48 0) = some out →
        (MsgHeader.Unpack zeroMsgHeader out).isSome ∧
        ∀ mh2, MsgHeader.Unpack zeroMsgHeader out = some mh2 →
          mh2.Leap = c10mh.Leap ∧ mh2.Version = c10mh.Version ∧ mh2.Mode = c10mh.Mode ∧
          mh2.Stratum = c10mh.Stratum ∧ mh2.Poll = c10mh.Poll ∧
          mh2.Precision = c10mh.Precision ∧
          mh2.RootDelay = c10mh.RootDelay ∧ mh2.RootDisp = c10mh.RootDisp) ∧
     (MsgHeader.Unpack zeroMsgHeader
         ((MsgHeader.Pack { zeroMsgHeader with Mode := 15 }
           (List.replicate 48 0)).getD [])).map
       (fun h => (h.Leap, h.Version, h.Mode)) = some (0, 1, 7)) :=
  ⟨by decide, by decide, by decide, by decide, by decide, by decide, by decide, by decide,
   by decide, by decide, by decide, by decide,
   c10_header_pack_unpack_written_fields c10mh (List.replicate 48 0) (by decide)
     (by decide) (by decide) (by decide) (by decide) (by decide) (by decide) (by decide)
     (by decide) (by decide) (by decide) (by decide)⟩

/-! ### C9: float/exponent round-trip on powers of two -/

/-- `mathLog2` recovers the exponent of a nonnegative power of two. -/
lemma mathLog2_two_pow (k : ℕ) : mathLog2 ((2 ^ k : ℕ) : ℚ) = k := by
  simp only [mathLog2, Rat.num_natCast, Rat.den_natCast]
  rcases Nat.eq_zero_or_pos k with rfl | hkpos
  · norm_num
  · have h12 : (1 : ℕ) < 2 ^ k := Nat.one_lt_two_pow_iff.mpr (by omega)
    rw [if_neg (by exact_mod_cast h12.ne'), Int.toNat_natCast,
      Nat.log_pow (by norm_num)]

/-- `mathLog2` recovers the (negative) exponent of an inverse power of two. -/
lemma mathLog2_inv_two_pow (k : ℕ) : mathLog2 ((((2 ^ k : ℕ) : ℚ))⁻¹) = -k := by
  simp only [mathLog2]
  rw [Rat.inv_natCast_num_of_pos (by positivity), if_pos rfl,
    Rat.inv_natCast_den_of_pos (by positivity), Nat.log_pow (by norm_num)]

/-- C9 counterexample: at `v = 2^64` (exponent 64 lies inside the claim's
signed-8-bit range `[-128, 127]`), `FloatToExponent` succeeds with 64, but
`Float 64` computes `float64(uint(1) << 64) = 0` — the 64-bit `uint` shift
wraps — so `to_float (from_float v) = 0 ≠ v`. -/
theorem c9_power_roundtrip_counterexample :
    FloatToExponent ((2 : ℚ) ^ (64 : Nat)) = .ok 64 ∧
    exponent.Float 64 = 0 ∧ ((2 : ℚ) ^ (64 : Nat)) ≠ 0 := by
  refine ⟨?_, by rfl, by positivity⟩
  rw [FloatToExponent,
    show ((2 : ℚ) ^ (64 : Nat)) = ((2 ^ 64 : ℕ) : ℚ) by push_cast; ring,
    mathLog2_two_pow]
  norm_num

/-- C9 amended: the round-trip `to_float (from_float (2^e)) = 2^e` holds for
every exponent `e` in `[-63, 63]` — the range in which the `uint(1) << k`
shift (`k = |e|`) does not overflow the 64-bit `uint`. -/
theorem c9_amended_power_roundtrip (e : Int) (h1 : -63 ≤ e) (h2 : e ≤ 63) :
    FloatToExponent ((2 : ℚ) ^ e) = .ok e ∧ exponent.Float e = (2 : ℚ) ^ e := by
  rcases le_or_lt 0 e with he | he
  · lift e to ℕ using he with k hk
    have hk63 : k ≤ 63 := by exact_mod_cast h2
    have hcast : ((2 ^ k : ℕ) : ℚ) = (2 : ℚ) ^ (k : ℤ) := by
      push_cast
      rw [zpow_natCast]
    have hmod : (1 <<< k) % 2 ^ 64 = 2 ^ k := by
      rw [Nat.one_shiftLeft]
      exact Nat.mod_eq_of_lt (lt_of_le_of_lt
        (Nat.pow_le_pow_right (by norm_num) hk63) (by norm_num))
    constructor
    · rw [FloatToExponent, ← hcast, mathLog2_two_pow]
    · rw [exponent.Float, if_neg (show ¬((k : ℤ) < 0) by omega),
        Int.toNat_natCast, hmod, hcast]
  · obtain ⟨k, rfl⟩ : ∃ k : ℕ, e = -(k : ℤ) := ⟨(-e).toNat, by omega⟩
    have hkpos : 1 ≤ k := by omega
    have hk63 : k ≤ 63 := by omega
    have hcast : ((2 ^ k : ℕ) : ℚ) = (2 : ℚ) ^ (k : ℤ) := by
      push_cast
      rw [zpow_natCast]
    have hval : (2 : ℚ) ^ (-(k : ℤ)) = (((2 ^ k : ℕ) : ℚ))⁻¹ := by
      rw [zpow_neg, hcast]
    have hmod : (1 <<< k) % 2 ^ 64 = 2 ^ k := by
      rw [Nat.one_shiftLeft]
      exact Nat.mod_eq_of_lt (lt_of_le_of_lt
        (Nat.pow_le_pow_right (by norm_num) hk63) (by norm_num))
    constructor
    · rw [FloatToExponent, hval, mathLog2_inv_two_pow]
    · rw [exponent.Float, if_pos (show -(k : ℤ) < 0 by omega),
        show (-(-(k : ℤ))).toNat = k by omega, hmod, hval]
      norm_num

/-- Witness for the amended C9 at `e = -5`. -/
theorem c9_amended_power_roundtrip_witness :
    (-63 ≤ (-5 : Int)) ∧ ((-5 : Int) ≤ 63) ∧
    (FloatToExponent ((2 : ℚ) ^ (-5 : Int)) = .ok (-5) ∧
     exponent.Float (-5) = (2 : ℚ) ^ (-5 : Int)) :=
  ⟨by norm_num, by norm_num, c9_amended_power_roundtrip (-5) (by norm_num) (by norm_num)⟩
